import Mathlib

/-!
Verification of the LegoStats window logic (`window.py`) against its design
specification.  The Python code is shallowly embedded: records, the sets
table and the detail-edit buffers become explicit Lean structures, the
mutable `Window` methods become state-transformer functions, and Python
exceptions become `Except`/`Option` results that carry the state at the
point where the exception is raised (every mutation performed before the
raise is visible in that state).  Python floats produced by `readFloat` are
modelled as exact decimal fractions (`DecKey`), which coincides with IEEE
doubles on all realistic set numbers.
-/

namespace LegoStats

/-! ### Small parsing helpers (`int(...)`, `float(...)`, `str.splitlines`) -/

/-- Value of a digit list, failing on any non-digit character. -/
def digitsVal : List Char → Option Nat
  | [] => some 0
  | c :: cs =>
    if c.isDigit then
      (digitsVal cs).map (fun n => (c.toNat - 48) * 10 ^ cs.length + n)
    else
      none

/-- Python `int(text)`: optional leading minus sign followed by a non-empty
digit string. -/
def pyInt (s : String) : Option Int :=
  match s.data with
  | [] => none
  | '-' :: cs =>
    match cs with
    | [] => none
    | _ => (digitsVal cs).map (fun n => -(n : Int))
  | cs => (digitsVal cs).map (fun n => (n : Int))

/-- An exact decimal value `num / den` with a positive denominator, kept
unnormalized so that all kernel computation stays on machine-supported
integer operations. -/
abbrev DecKey : Type := { p : Int × Nat // 0 < p.2 }

/-- The rational number a key denotes. -/
def keyVal (k : DecKey) : ℚ := (k.val.1 : ℚ) / (k.val.2 : ℚ)

/-- Comparison of two decimal values by cross multiplication, equivalent to
comparing the denoted rationals. -/
def keyLe (a b : DecKey) : Prop :=
  a.val.1 * (b.val.2 : Int) ≤ b.val.1 * (a.val.2 : Int)

theorem keyLe_iff (a b : DecKey) : keyLe a b ↔ keyVal a ≤ keyVal b := by
  have ha : (0 : ℚ) < (a.val.2 : ℚ) := by exact_mod_cast a.property
  have hb : (0 : ℚ) < (b.val.2 : ℚ) := by exact_mod_cast b.property
  unfold keyLe keyVal
  rw [div_le_div_iff₀ ha hb]
  constructor
  · intro h; exact_mod_cast h
  · intro h; exact_mod_cast h

/-- Python `float(text)` restricted to decimal literals `digits[.digits]`,
`.digits` or `digits.`, as produced by `readFloat` on catalog numbers.  Any
other shape (letters, a second dot, the bare dot) fails like `float` does.
The value is represented exactly. -/
def parseDec (cs : List Char) : Option DecKey :=
  match cs.span (· ≠ '.') with
  | (intp, []) =>
    match intp with
    | [] => none
    | _ => (digitsVal intp).map (fun n => ⟨((n : Int), 1), Nat.one_pos⟩)
  | (intp, _ :: fracp) =>
    if fracp.contains '.' then none
    else if intp.isEmpty && fracp.isEmpty then none
    else
      match digitsVal intp with
      | none => none
      | some i =>
        (digitsVal fracp).map (fun f =>
          ⟨((i : Int) * 10 ^ fracp.length + (f : Int), 10 ^ fracp.length), by positivity⟩)

/-- Source `readFloat(text)`: `float(text.replace("-", "."))`.  The
single-character replacement is a character map. -/
def readFloat (s : String) : Option DecKey :=
  parseDec (s.data.map (fun c => if c = '-' then '.' else c))

/-- Python `len(text.splitlines())`: the boolean flag records whether an
unterminated line is currently open. -/
def lineCountAux : List Char → Bool → Nat
  | [], inLine => if inLine then 1 else 0
  | '\r' :: '\n' :: r, _ => 1 + lineCountAux r false
  | '\r' :: r, _ => 1 + lineCountAux r false
  | '\n' :: r, _ => 1 + lineCountAux r false
  | _ :: r, _ => lineCountAux r true

/-- Number of lines of a string in the sense of Python `splitlines`:
the empty string has 0 lines, a trailing non-terminated line counts as 1. -/
def lineCount (cs : List Char) : Nat := lineCountAux cs false

/-! ### Lexicographic string comparison (Python `str` ordering by code point) -/

/-- Lexicographic comparison of character lists by code point, the order
Python uses for `str` keys in `sorted`. -/
def lexLe : List Char → List Char → Bool
  | [], _ => true
  | _ :: _, [] => false
  | a :: as, b :: bs =>
    if a.toNat < b.toNat then true
    else if b.toNat < a.toNat then false
    else lexLe as bs

/-- Lexicographic string comparison used for ordering theme-label groups. -/
def strLe (a b : String) : Bool := lexLe a.data b.data

theorem lexLe_refl : ∀ cs, lexLe cs cs = true := by
  intro cs
  induction cs with
  | nil => rfl
  | cons c cs ih => simp [lexLe, ih]

theorem lexLe_total : ∀ as bs, lexLe as bs = true ∨ lexLe bs as = true := by
  intro as
  induction as with
  | nil => intro bs; left; rfl
  | cons a as ih =>
    intro bs
    cases bs with
    | nil => right; rfl
    | cons b bs =>
      by_cases h1 : a.toNat < b.toNat
      · left; simp [lexLe, h1]
      · by_cases h2 : b.toNat < a.toNat
        · right; simp [lexLe, h2]
        · rcases ih bs with h | h
          · left; simp [lexLe, h1, h2, h]
          · right; simp [lexLe, h1, h2, h]

theorem lexLe_trans :
    ∀ as bs cs, lexLe as bs = true → lexLe bs cs = true → lexLe as cs = true := by
  intro as
  induction as with
  | nil => intro bs cs _ _; rfl
  | cons a as ih =>
    intro bs cs hab hbc
    cases bs with
    | nil => simp [lexLe] at hab
    | cons b bs =>
      cases cs with
      | nil => simp [lexLe] at hbc
      | cons c cs =>
        simp only [lexLe] at hab hbc ⊢
        by_cases h1 : a.toNat < b.toNat
        · by_cases h2 : b.toNat < c.toNat
          · have : a.toNat < c.toNat := Nat.lt_trans h1 h2
            simp [this]
          · by_cases h3 : c.toNat < b.toNat
            · simp [h2, h3] at hbc
            · have hbc' : b.toNat = c.toNat := Nat.le_antisymm (Nat.le_of_not_lt h3) (Nat.le_of_not_lt h2)
              have : a.toNat < c.toNat := hbc' ▸ h1
              simp [this]
        · by_cases h2 : b.toNat < a.toNat
          · simp [h1, h2] at hab
          · have hab' : a.toNat = b.toNat := Nat.le_antisymm (Nat.le_of_not_lt h2) (Nat.le_of_not_lt h1)
            by_cases h3 : b.toNat < c.toNat
            · have : a.toNat < c.toNat := hab' ▸ h3
              simp [this]
            · by_cases h4 : c.toNat < b.toNat
              · simp [h3, h4] at hbc
              · have h5 : ¬ a.toNat < c.toNat := by omega
                have h6 : ¬ c.toNat < a.toNat := by omega
                simp only [h1, h2, if_false, if_true, ite_false, ite_true] at hab
                simp only [h3, h4, if_false, if_true, ite_false, ite_true] at hbc
                simp [h5, h6, ih bs cs hab hbc]

/-! ### Data model (catalog tables, collection records, composite rows) -/

/-- Catalog entry for a set, the 4-tuple stored in `self.sets[number]`:
`[name, releaseYear, themeId, totalParts]`.  Theme ids are the JSON object
keys, hence strings. -/
structure SetEntry where
  name : String
  year : Option Int
  themeId : String
  parts : Int
deriving DecidableEq

/-- A mutable collection record, the list `self.originalData[number] =
[quantity, boxes, instructions, weight, missingParts, missingFigs, notes]`.
Missing parts are `(partNumber, colorId, quantity)` triples, missing figs
`(figNumber, quantity)` pairs. -/
structure Rec where
  qty : Int
  boxes : Int
  ins : Int
  wgh : Option Int
  mprts : List (String × Int × Int)
  mfigs : List (String × Int)
  notes : String
deriving DecidableEq

/-- Read-only reference data loaded at startup: `self.sets`,
`self.themes` (id ↦ `[name, parentId]`), `self.mainThemes`
(id ↦ `[name, sortKey]`) and the color palette restricted to the fields the
core uses (`id`, `name`). -/
structure Env where
  sets : List (String × SetEntry)
  themes : List (String × String × String)
  mains : List (String × String × Int)
  colors : List (Int × String)
deriving DecidableEq

/-- Association-list lookup, the embedding of a Python dict access. -/
def alookup {α : Type} : List (String × α) → String → Option α
  | [], _ => none
  | (k, v) :: ds, n => if k = n then some v else alookup ds n

/-- First palette color whose name matches, as `ColorDialog.get(name=...)`. -/
def colorIdByName (colors : List (Int × String)) (nm : String) : Option Int :=
  match colors with
  | [] => none
  | (i, n) :: cs => if n = nm then some i else colorIdByName cs nm

/-! ### Theme resolution (`Window.getTheme`) -/

/-- Worklist form of `Window.getTheme`: walk `parentId` links, consing each
name so that the accumulated list ends up in root-to-leaf order, until a
main theme is hit; `fuel` bounds the number of hops (the Python loop would
diverge on a cyclic table). -/
def getThemeAux (env : Env) : Nat → String → List String → Option (Int × String)
  | 0, _, _ => none
  | fuel + 1, t, ns =>
    match alookup env.mains t with
    | some (n, c) => some (c, String.intercalate ": " (n :: ns))
    | none =>
      match alookup env.themes t with
      | some (n, p) => getThemeAux env fuel p (n :: ns)
      | none => none

/-- Source `Window.getTheme(thm)`: returns the root theme's sort key and the
label joining the theme names from root to leaf with `": "`. -/
def getTheme (env : Env) (fuel : Nat) (t : String) : Option (Int × String) :=
  getThemeAux env fuel t []

/-- Main-theme entry reached by following `parentId` links from `t`. -/
def rootMain (env : Env) : Nat → String → Option (String × Int)
  | 0, _ => none
  | fuel + 1, t =>
    match alookup env.mains t with
    | some (n, c) => some (n, c)
    | none =>
      match alookup env.themes t with
      | some (_, p) => rootMain env fuel p
      | none => none

/-- Decidable form of the spec invariant that following `parentId` links
from `t` reaches a root theme within `k` hops. -/
def resolvesB (env : Env) : Nat → String → Bool
  | 0, t => (alookup env.mains t).isSome
  | k + 1, t =>
    match alookup env.mains t with
    | some _ => true
    | none =>
      match alookup env.themes t with
      | some (_, p) => resolvesB env k p
      | none => false

/-- Own name segment of a theme id: the main-theme name if it is a root,
otherwise its name in the child-themes table. -/
def leafName (env : Env) (t : String) : String :=
  match alookup env.mains t with
  | some (n, _) => n
  | none =>
    match alookup env.themes t with
    | some (n, _) => n
    | none => ""

theorem getThemeAux_resolves (env : Env) :
    ∀ k t, resolvesB env k t = true →
      ∃ c rootName path,
        path.head? = some rootName ∧
        path.getLast? = some (leafName env t) ∧
        (∀ fuel, k < fuel → rootMain env fuel t = some (rootName, c)) ∧
        (∀ fuel ns, k < fuel →
          getThemeAux env fuel t ns = some (c, String.intercalate ": " (path ++ ns))) := by
  intro k
  induction k with
  | zero =>
    intro t h
    simp only [resolvesB, Option.isSome_iff_exists] at h
    obtain ⟨⟨n, c⟩, hm⟩ := h
    refine ⟨c, n, [n], rfl, by simp [leafName, hm], ?_, ?_⟩
    · intro fuel hf
      cases fuel with
      | zero => omega
      | succ f => simp [rootMain, hm]
    · intro fuel ns hf
      cases fuel with
      | zero => omega
      | succ f => simp [getThemeAux, hm, leafName]
  | succ k ih =>
    intro t h
    simp only [resolvesB] at h
    cases hm : alookup env.mains t with
    | some nc =>
      obtain ⟨n, c⟩ := nc
      refine ⟨c, n, [n], rfl, by simp [leafName, hm], ?_, ?_⟩
      · intro fuel hf
        cases fuel with
        | zero => omega
        | succ f => simp [rootMain, hm]
      · intro fuel ns hf
        cases fuel with
        | zero => omega
        | succ f => simp [getThemeAux, hm]
    | none =>
      rw [hm] at h
      cases ht : alookup env.themes t with
      | none => rw [ht] at h; simp at h
      | some np =>
        obtain ⟨n, p⟩ := np
        rw [ht] at h
        obtain ⟨c, rootName, path, hhd, hlast, hroot, haux⟩ := ih p h
        have hne : path ≠ [] := by
          intro he; rw [he] at hhd; simp at hhd
        refine ⟨c, rootName, path ++ [n], ?_, ?_, ?_, ?_⟩
        · rw [List.head?_append]
          cases hp : path.head? with
          | none => rw [List.head?_eq_none_iff] at hp; exact absurd hp hne
          | some x => rw [hp] at hhd; simp [hhd]
        · rw [List.getLast?_concat]
          simp [leafName, hm, ht]
        · intro fuel hf
          cases fuel with
          | zero => omega
          | succ f =>
            have : k < f := by omega
            simp [rootMain, hm, ht, hroot f this]
        · intro fuel ns hf
          cases fuel with
          | zero => omega
          | succ f =>
            have hkf : k < f := by omega
            simp only [getThemeAux, hm, ht]
            rw [haux f (n :: ns) hkf, List.append_assoc]
            rfl

/-! ### Composite rows and `Window.complete` -/

/-- A composite row value as built inside `Window.complete`:
`[num, name, th, qty, bx, ins, parts, wgh or "", sum mprts, sum mfigs,
len(notes.splitlines())]`.  The weight cell is `none` exactly when the
Python value is the empty string (stored weight falsy, i.e. `None` or 0). -/
structure Row where
  num : String
  name : String
  theme : Int × String
  qty : Int
  boxes : Int
  ins : Int
  parts : Int
  weight : Option Int
  mprts : Int
  mfigs : Int
  notesLines : Nat
deriving DecidableEq

/-- Sum of the quantity components of a missing-parts list
(`sum(x[2] for x in mprts)`). -/
def partsTotal (l : List (String × Int × Int)) : Int :=
  (l.map (fun x => x.2.2)).sum

/-- Sum of the quantity components of a missing-figs list
(`sum(x[1] for x in mfigs)`). -/
def figsTotal (l : List (String × Int)) : Int :=
  (l.map (fun x => x.2)).sum

/-- The row list literal of `Window.complete` for one record. -/
def mkRow (num : String) (e : SetEntry) (r : Rec) (th : Int × String) : Row where
  num := num
  name := e.name
  theme := th
  qty := r.qty
  boxes := r.boxes
  ins := r.ins
  parts := e.parts
  weight :=
    match r.wgh with
    | some w => if w = 0 then none else some w
    | none => none
  mprts := partsTotal r.mprts
  mfigs := figsTotal r.mfigs
  notesLines := lineCount r.notes.data

/-- Builds the composite row of every record in order, failing on the first
record whose set number is missing from the catalog or whose theme chain
does not resolve (the Python `KeyError`). -/
def buildRows (env : Env) (fuel : Nat) : List (String × Rec) → Option (List Row)
  | [] => some []
  | (num, r) :: ds =>
    match alookup env.sets num with
    | none => none
    | some e =>
      match getTheme env fuel e.themeId with
      | none => none
      | some th => (buildRows env fuel ds).map (mkRow num e r th :: ·)

/-- The `thms.setdefault(th[1], []).append(row)` step: append the row to the
group keyed by its theme label, creating the group at the end on first use
(Python dicts preserve insertion order). -/
def addToGroups : List (String × List Row) → Row → List (String × List Row)
  | [], r => [(r.theme.2, [r])]
  | (l, rs) :: gs, r =>
    if l = r.theme.2 then (l, rs ++ [r]) :: gs else (l, rs) :: addToGroups gs r

/-- Grouping loop of `Window.complete`. -/
def groupRows (rows : List Row) : List (String × List Row) :=
  rows.foldl addToGroups []

/-- Group comparison used by `sorted(thms.items(), key=lambda x: x[0])`:
only the theme label (the dict key) is compared. -/
def labRel (g h : String × List Row) : Prop := strLe g.1 h.1 = true

instance : DecidableRel labRel := fun g h =>
  inferInstanceAs (Decidable (strLe g.1 h.1 = true))

instance : IsTotal (String × List Row) labRel :=
  ⟨fun g h => lexLe_total g.1.data h.1.data⟩

instance : IsTrans (String × List Row) labRel :=
  ⟨fun g h k => lexLe_trans g.1.data h.1.data k.1.data⟩

/-- Key comparison of `sorted(rows, key=lambda x: readFloat(x[0]))`:
decorated rows compared by their precomputed numeric key. -/
def keyRel (a b : DecKey × Row) : Prop := keyLe a.1 b.1

instance : DecidableRel keyRel := fun a b =>
  inferInstanceAs (Decidable (a.1.val.1 * (b.1.val.2 : Int) ≤ b.1.val.1 * (a.1.val.2 : Int)))

instance : IsTotal (DecKey × Row) keyRel :=
  ⟨fun a b => by
    rcases le_total (keyVal a.1) (keyVal b.1) with h | h
    · exact Or.inl ((keyLe_iff _ _).2 h)
    · exact Or.inr ((keyLe_iff _ _).2 h)⟩

instance : IsTrans (DecKey × Row) keyRel :=
  ⟨fun _ _ _ hab hbc => (keyLe_iff _ _).2
    (le_trans ((keyLe_iff _ _).1 hab) ((keyLe_iff _ _).1 hbc))⟩

/-- Decorates each row of a group with its `readFloat` key, failing where
`float` would raise. -/
def attachKeys : List Row → Option (List (DecKey × Row))
  | [] => some []
  | r :: rs =>
    match readFloat r.num with
    | none => none
    | some q => (attachKeys rs).map ((q, r) :: ·)

/-- Sorts one theme group by the numeric key (a stable sort, like Python's
`sorted`). -/
def sortGroup (rs : List Row) : Option (List Row) :=
  (attachKeys rs).map (fun ks => (ks.insertionSort keyRel).map (fun p => p.2))

/-- Sorts the rows of every group in place, keeping the group labels. -/
def sortGroups : List (String × List Row) → Option (List (String × List Row))
  | [] => some []
  | (l, rs) :: gs =>
    match sortGroup rs with
    | none => none
    | some rs' => (sortGroups gs).map ((l, rs') :: ·)

/-- Source `Window.complete(data)`: build all composite rows, group them by
theme label, sort the groups by label, sort each group by the numeric value
of the set number, and concatenate. -/
def complete (env : Env) (fuel : Nat) (data : List (String × Rec)) : Option (List Row) :=
  match buildRows env fuel data with
  | none => none
  | some rows =>
    match sortGroups ((groupRows rows).insertionSort labRel) with
    | none => none
    | some gs => some ((gs.map (fun g => g.2)).flatten)

/-! ### Structural lemmas about the `complete` pipeline -/

theorem addToGroups_fst (gs : List (String × List Row)) (r : Row) :
    (addToGroups gs r).map Prod.fst =
      if r.theme.2 ∈ gs.map Prod.fst then gs.map Prod.fst
      else gs.map Prod.fst ++ [r.theme.2] := by
  induction gs with
  | nil => simp [addToGroups]
  | cons g gs ih =>
    obtain ⟨l, rs⟩ := g
    by_cases h : l = r.theme.2
    · subst h; simp [addToGroups]
    · have hne : ¬ (r.theme.2 = l) := fun he => h he.symm
      by_cases hm : r.theme.2 ∈ gs.map Prod.fst
      · simp [addToGroups, if_neg h, ih, hm, List.mem_cons]
      · simp [addToGroups, if_neg h, ih, hm, List.mem_cons, hne]

theorem addToGroups_labels (gs : List (String × List Row)) (r : Row)
    (h : ∀ p ∈ gs, ∀ x ∈ p.2, x.theme.2 = p.1) :
    ∀ p ∈ addToGroups gs r, ∀ x ∈ p.2, x.theme.2 = p.1 := by
  induction gs with
  | nil =>
    intro p hp x hx
    simp only [addToGroups, List.mem_singleton] at hp
    subst hp
    simp only [List.mem_singleton] at hx
    subst hx
    rfl
  | cons g gs ih =>
    obtain ⟨l, rs⟩ := g
    intro p hp x hx
    by_cases hl : l = r.theme.2
    · rw [show addToGroups ((l, rs) :: gs) r = (l, rs ++ [r]) :: gs by
        simp [addToGroups, hl]] at hp
      rcases List.mem_cons.1 hp with hp | hp
      · subst hp
        simp only [List.mem_append, List.mem_singleton] at hx
        rcases hx with hx | hx
        · exact h (l, rs) (by simp) x hx
        · subst hx; exact hl.symm
      · exact h p (by simp [hp]) x hx
    · rw [show addToGroups ((l, rs) :: gs) r = (l, rs) :: addToGroups gs r by
        simp [addToGroups, hl]] at hp
      rcases List.mem_cons.1 hp with hp | hp
      · subst hp; exact h (l, rs) (by simp) x hx
      · exact ih (fun q hq => h q (by simp [hq])) p hp x hx

theorem addToGroups_mem (gs : List (String × List Row)) (r : Row)
    (p : String × List Row) (hp : p ∈ addToGroups gs r) (x : Row) (hx : x ∈ p.2) :
    (∃ q ∈ gs, x ∈ q.2) ∨ x = r := by
  induction gs with
  | nil =>
    simp only [addToGroups, List.mem_singleton] at hp
    subst hp
    simp only [List.mem_singleton] at hx
    right; exact hx
  | cons g gs ih =>
    obtain ⟨l, rs⟩ := g
    by_cases hl : l = r.theme.2
    · rw [show addToGroups ((l, rs) :: gs) r = (l, rs ++ [r]) :: gs by
        simp [addToGroups, hl]] at hp
      rcases List.mem_cons.1 hp with hp | hp
      · subst hp
        simp only [List.mem_append, List.mem_singleton] at hx
        rcases hx with hx | hx
        · exact Or.inl ⟨(l, rs), by simp, hx⟩
        · exact Or.inr hx
      · exact Or.inl ⟨p, by simp [hp], hx⟩
    · rw [show addToGroups ((l, rs) :: gs) r = (l, rs) :: addToGroups gs r by
        simp [addToGroups, hl]] at hp
      rcases List.mem_cons.1 hp with hp | hp
      · subst hp; exact Or.inl ⟨(l, rs), by simp, hx⟩
      · rcases ih hp with ⟨q, hq, hxq⟩ | hxr
        · exact Or.inl ⟨q, by simp [hq], hxq⟩
        · exact Or.inr hxr

theorem foldl_addToGroups_labels (rows : List Row) :
    ∀ gs, (∀ p ∈ gs, ∀ x ∈ p.2, x.theme.2 = p.1) →
      ∀ p ∈ rows.foldl addToGroups gs, ∀ x ∈ p.2, x.theme.2 = p.1 := by
  induction rows with
  | nil => intro gs h; simpa using h
  | cons r rows ih =>
    intro gs h
    exact ih (addToGroups gs r) (addToGroups_labels gs r h)

theorem groupRows_labels (rows : List Row) :
    ∀ p ∈ groupRows rows, ∀ x ∈ p.2, x.theme.2 = p.1 :=
  foldl_addToGroups_labels rows [] (by simp)

theorem foldl_addToGroups_nodup (rows : List Row) :
    ∀ gs, ((gs.map Prod.fst).Nodup) →
      ((rows.foldl addToGroups gs).map Prod.fst).Nodup := by
  induction rows with
  | nil => intro gs h; simpa using h
  | cons r rows ih =>
    intro gs h
    refine ih (addToGroups gs r) ?_
    rw [addToGroups_fst]
    by_cases hm : r.theme.2 ∈ gs.map Prod.fst
    · simpa [hm] using h
    · simp [hm, List.nodup_append, h]

theorem groupRows_nodup (rows : List Row) :
    ((groupRows rows).map Prod.fst).Nodup :=
  foldl_addToGroups_nodup rows [] (by simp)

theorem foldl_addToGroups_mem (rows : List Row) :
    ∀ gs (p : String × List Row), p ∈ rows.foldl addToGroups gs →
      ∀ x ∈ p.2, (∃ q ∈ gs, x ∈ q.2) ∨ x ∈ rows := by
  induction rows with
  | nil =>
    intro gs p hp x hx
    exact Or.inl ⟨p, hp, hx⟩
  | cons r rows ih =>
    intro gs p hp x hx
    rcases ih (addToGroups gs r) p hp x hx with ⟨q, hq, hxq⟩ | hxr
    · rcases addToGroups_mem gs r q hq x hxq with ⟨q', hq', hxq'⟩ | hxr'
      · exact Or.inl ⟨q', hq', hxq'⟩
      · exact Or.inr (by simp [hxr'])
    · exact Or.inr (by simp [hxr])

theorem groupRows_mem (rows : List Row) (p : String × List Row)
    (hp : p ∈ groupRows rows) (x : Row) (hx : x ∈ p.2) : x ∈ rows := by
  rcases foldl_addToGroups_mem rows [] p hp x hx with ⟨q, hq, _⟩ | h
  · simp at hq
  · exact h

theorem attachKeys_map (rs : List Row) :
    ∀ ks, attachKeys rs = some ks → ks.map (fun p => p.2) = rs := by
  induction rs with
  | nil =>
    intro ks h
    simp only [attachKeys, Option.some.injEq] at h
    subst h
    simp
  | cons r rs ih =>
    intro ks h
    simp only [attachKeys] at h
    cases hf : readFloat r.num with
    | none => rw [hf] at h; exact absurd h (by simp)
    | some q =>
      rw [hf] at h
      cases ha : attachKeys rs with
      | none => rw [ha] at h; exact absurd h (by simp)
      | some ks' =>
        rw [ha] at h
        simp only [Option.map_some', Option.some.injEq] at h
        subst h
        simp [ih ks' ha]

theorem attachKeys_keys (rs : List Row) :
    ∀ ks, attachKeys rs = some ks → ∀ p ∈ ks, readFloat p.2.num = some p.1 := by
  induction rs with
  | nil =>
    intro ks h
    simp only [attachKeys, Option.some.injEq] at h
    subst h
    simp
  | cons r rs ih =>
    intro ks h
    simp only [attachKeys] at h
    cases hf : readFloat r.num with
    | none => rw [hf] at h; exact absurd h (by simp)
    | some q =>
      rw [hf] at h
      cases ha : attachKeys rs with
      | none => rw [ha] at h; exact absurd h (by simp)
      | some ks' =>
        rw [ha] at h
        simp only [Option.map_some', Option.some.injEq] at h
        subst h
        intro p hp
        rcases List.mem_cons.1 hp with hp | hp
        · subst hp; exact hf
        · exact ih ks' ha p hp

theorem sortGroup_mem (rs out : List Row) (h : sortGroup rs = some out) :
    ∀ x ∈ out, x ∈ rs := by
  unfold sortGroup at h
  cases ha : attachKeys rs with
  | none => rw [ha] at h; exact absurd h (by simp)
  | some ks =>
    rw [ha] at h
    simp only [Option.map_some', Option.some.injEq] at h
    subst h
    intro x hx
    rcases List.mem_map.1 hx with ⟨p, hp, hpx⟩
    have hpks : p ∈ ks := (List.mem_insertionSort keyRel).1 hp
    have : p.2 ∈ ks.map (fun p => p.2) := List.mem_map.2 ⟨p, hpks, rfl⟩
    rw [attachKeys_map rs ks ha] at this
    rw [← hpx]
    exact this

theorem sortGroup_sorted (rs out : List Row) (h : sortGroup rs = some out) :
    out.Pairwise (fun x y => ∀ a b,
      readFloat x.num = some a → readFloat y.num = some b → keyVal a ≤ keyVal b) := by
  unfold sortGroup at h
  cases ha : attachKeys rs with
  | none => rw [ha] at h; exact absurd h (by simp)
  | some ks =>
    rw [ha] at h
    simp only [Option.map_some', Option.some.injEq] at h
    subst h
    have hsorted : (ks.insertionSort keyRel).Pairwise keyRel :=
      List.sorted_insertionSort keyRel ks
    have hkeys : ∀ p ∈ ks.insertionSort keyRel, readFloat p.2.num = some p.1 := by
      intro p hp
      exact attachKeys_keys rs ks ha p ((List.mem_insertionSort keyRel).1 hp)
    refine List.pairwise_map.2 ?_
    refine hsorted.imp_of_mem ?_
    intro p q hp hq hle a b hpa hqb
    rw [hkeys p hp] at hpa
    rw [hkeys q hq] at hqb
    cases hpa
    cases hqb
    exact (keyLe_iff _ _).1 hle

theorem sortGroups_fst : ∀ gs gs', sortGroups gs = some gs' →
    gs'.map Prod.fst = gs.map Prod.fst := by
  intro gs
  induction gs with
  | nil =>
    intro gs' h
    simp only [sortGroups, Option.some.injEq] at h
    subst h
    simp
  | cons g gs ih =>
    obtain ⟨l, rs⟩ := g
    intro gs' h
    simp only [sortGroups] at h
    cases hs : sortGroup rs with
    | none => rw [hs] at h; exact absurd h (by simp)
    | some rs' =>
      rw [hs] at h
      cases hrest : sortGroups gs with
      | none => rw [hrest] at h; exact absurd h (by simp)
      | some gs'' =>
        rw [hrest] at h
        simp only [Option.map_some', Option.some.injEq] at h
        subst h
        simp [ih gs'' hrest]

theorem sortGroups_blocks : ∀ gs gs', sortGroups gs = some gs' →
    ∀ p ∈ gs', ∃ rs, (p.1, rs) ∈ gs ∧ sortGroup rs = some p.2 := by
  intro gs
  induction gs with
  | nil =>
    intro gs' h
    simp only [sortGroups, Option.some.injEq] at h
    subst h
    simp
  | cons g gs ih =>
    obtain ⟨l, rs⟩ := g
    intro gs' h
    simp only [sortGroups] at h
    cases hs : sortGroup rs with
    | none => rw [hs] at h; exact absurd h (by simp)
    | some rs' =>
      rw [hs] at h
      cases hrest : sortGroups gs with
      | none => rw [hrest] at h; exact absurd h (by simp)
      | some gs'' =>
        rw [hrest] at h
        simp only [Option.map_some', Option.some.injEq] at h
        subst h
        intro p hp
        rcases List.mem_cons.1 hp with hp | hp
        · subst hp; exact ⟨rs, by simp, hs⟩
        · rcases ih gs'' hrest p hp with ⟨rs₀, hmem, hsort⟩
          exact ⟨rs₀, by simp [hmem], hsort⟩

theorem buildRows_nums (env : Env) (fuel : Nat) :
    ∀ data rows, buildRows env fuel data = some rows →
      rows.map (fun r => r.num) = data.map Prod.fst := by
  intro data
  induction data with
  | nil =>
    intro rows h
    simp only [buildRows, Option.some.injEq] at h
    subst h
    simp
  | cons d ds ih =>
    obtain ⟨num, r⟩ := d
    intro rows h
    simp only [buildRows] at h
    split at h
    · exact absurd h (by simp)
    · split at h
      · exact absurd h (by simp)
      · rename_i e he th hth
        cases hb : buildRows env fuel ds with
        | none => rw [hb] at h; exact absurd h (by simp)
        | some rows' =>
          rw [hb] at h
          simp only [Option.map_some', Option.some.injEq] at h
          subst h
          simp [mkRow, ih rows' hb]

theorem complete_parts (env : Env) (fuel : Nat) (data : List (String × Rec))
    (out : List Row) (h : complete env fuel data = some out) :
    ∃ rows gs', buildRows env fuel data = some rows ∧
      sortGroups ((groupRows rows).insertionSort labRel) = some gs' ∧
      out = (gs'.map (fun g => g.2)).flatten := by
  unfold complete at h
  split at h
  · exact absurd h (by simp)
  · rename_i rows hb
    split at h
    · exact absurd h (by simp)
    · rename_i gs' hs
      exact ⟨rows, gs', hb, hs, by injection h with h; exact h.symm⟩

theorem sortGroups_block_labels (rows : List Row) (gs' : List (String × List Row))
    (hs : sortGroups ((groupRows rows).insertionSort labRel) = some gs') :
    ∀ g ∈ gs', ∀ x ∈ g.2, x.theme.2 = g.1 := by
  intro g hg x hx
  obtain ⟨rs, hmem, hsort⟩ := sortGroups_blocks _ _ hs g hg
  have hxrs : x ∈ rs := sortGroup_mem rs g.2 hsort x hx
  exact groupRows_labels rows (g.1, rs) ((List.mem_insertionSort labRel).1 hmem) x hxrs

theorem sortGroups_pairwise_labRel (rows : List Row) (gs' : List (String × List Row))
    (hs : sortGroups ((groupRows rows).insertionSort labRel) = some gs') :
    gs'.Pairwise (fun g h => strLe g.1 h.1 = true) := by
  have hsorted : ((groupRows rows).insertionSort labRel).Pairwise labRel :=
    List.sorted_insertionSort labRel _
  have h1 : (((groupRows rows).insertionSort labRel).map Prod.fst).Pairwise
      (fun a b => strLe a b = true) :=
    List.pairwise_map.2 (hsorted.imp (fun hab => hab))
  rw [← sortGroups_fst _ _ hs] at h1
  exact List.pairwise_map.1 h1

theorem sortGroups_nodup_fst (rows : List Row) (gs' : List (String × List Row))
    (hs : sortGroups ((groupRows rows).insertionSort labRel) = some gs') :
    (gs'.map Prod.fst).Nodup := by
  rw [sortGroups_fst _ _ hs]
  have hperm : List.Perm (((groupRows rows).insertionSort labRel).map Prod.fst)
      ((groupRows rows).map Prod.fst) :=
    (List.perm_insertionSort labRel (groupRows rows)).map Prod.fst
  exact hperm.symm.nodup (groupRows_nodup rows)

theorem complete_labels_sorted (env : Env) (fuel : Nat) (data : List (String × Rec))
    (out : List Row) (h : complete env fuel data = some out) :
    (out.map (fun r => r.theme.2)).Pairwise (fun a b => strLe a b = true) := by
  obtain ⟨rows, gs', hb, hs, hout⟩ := complete_parts env fuel data out h
  subst hout
  have hblock := sortGroups_block_labels rows gs' hs
  rw [List.map_flatten, List.map_map]
  rw [List.pairwise_flatten]
  constructor
  · intro bl hbl
    rcases List.mem_map.1 hbl with ⟨g, hg, rfl⟩
    refine List.pairwise_of_forall_mem_list ?_
    intro a ha b hb'
    rcases List.mem_map.1 ha with ⟨x, hx, rfl⟩
    rcases List.mem_map.1 hb' with ⟨y, hy, rfl⟩
    show strLe x.theme.2 y.theme.2 = true
    rw [hblock g hg x hx, hblock g hg y hy]
    exact lexLe_refl g.1.data
  · refine List.pairwise_map.2 ?_
    refine (sortGroups_pairwise_labRel rows gs' hs).imp_of_mem ?_
    intro g h' hg hh hrel x hx y hy
    rcases List.mem_map.1 hx with ⟨x0, hx0, rfl⟩
    rcases List.mem_map.1 hy with ⟨y0, hy0, rfl⟩
    show strLe x0.theme.2 y0.theme.2 = true
    rw [hblock g hg x0 hx0, hblock h' hh y0 hy0]
    exact hrel

theorem complete_rows_key_sorted (env : Env) (fuel : Nat) (data : List (String × Rec))
    (out : List Row) (h : complete env fuel data = some out) :
    out.Pairwise (fun x y => x.theme.2 = y.theme.2 →
      ∀ a b, readFloat x.num = some a → readFloat y.num = some b → keyVal a ≤ keyVal b) := by
  obtain ⟨rows, gs', hb, hs, hout⟩ := complete_parts env fuel data out h
  subst hout
  have hblock := sortGroups_block_labels rows gs' hs
  rw [List.pairwise_flatten]
  constructor
  · intro bl hbl
    rcases List.mem_map.1 hbl with ⟨g, hg, rfl⟩
    obtain ⟨rs, _, hsort⟩ := sortGroups_blocks _ _ hs g hg
    exact (sortGroup_sorted rs g.2 hsort).imp (fun hxy => fun _ => hxy)
  · have hnd : gs'.Pairwise (fun g h => g.1 ≠ h.1) :=
      List.pairwise_map.1 (sortGroups_nodup_fst rows gs' hs)
    refine List.pairwise_map.2 ?_
    refine hnd.imp_of_mem ?_
    intro g h' hg hh hne x hx y hy hlab
    exact ((hne ((hblock g hg x hx).symm.trans
      (hlab.trans (hblock h' hh y hy)))).elim)

theorem complete_mem (env : Env) (fuel : Nat) (data : List (String × Rec))
    (out : List Row) (h : complete env fuel data = some out) :
    ∀ r ∈ out, r.num ∈ data.map Prod.fst := by
  obtain ⟨rows, gs', hb, hs, hout⟩ := complete_parts env fuel data out h
  subst hout
  intro r hr
  rcases List.mem_flatten.1 hr with ⟨bl, hbl, hrbl⟩
  rcases List.mem_map.1 hbl with ⟨g, hg, rfl⟩
  obtain ⟨rs, hmem, hsort⟩ := sortGroups_blocks _ _ hs g hg
  have hrs : r ∈ rs := sortGroup_mem rs g.2 hsort r hrbl
  have hrows : r ∈ rows :=
    groupRows_mem rows (g.1, rs) ((List.mem_insertionSort labRel).1 hmem) r hrs
  rw [← buildRows_nums env fuel data rows hb]
  exact List.mem_map.2 ⟨r, hrows, rfl⟩

/-! ### Window state and the selection/flush state machine -/

/-- One row of the sets table.  Cells that the code re-reads as text
(`quantity`, `boxes`, `instructions`, `parts`, `weight`) are kept as the
displayed strings; the derived cells written by `updateSetItem` with
integer values are kept as those values. -/
structure TableRow where
  num : String
  name : String
  label : String
  qty : String
  boxes : String
  ins : String
  parts : String
  weight : String
  mprts : Int
  mfigs : Int
  notesLines : Nat
deriving DecidableEq

/-- The mutable window state: the current selection (`self.selected`), the
record store (`self.originalData`, an insertion-ordered dict), the sets
table, and the three transient detail-edit buffers (missing-parts table,
missing-figs table, notes area).  Buffer cells are the displayed strings. -/
structure St where
  selected : Option String
  data : List (String × Rec)
  table : List TableRow
  partsBuf : List (String × String × String)
  figsBuf : List (String × String)
  notesBuf : String
deriving DecidableEq

/-- Updates the value stored at a key, leaving the list unchanged when the
key is absent (a Python in-place mutation of `dict[k]`). -/
def updEntry {α : Type} : List (String × α) → String → (α → α) → List (String × α)
  | [], _, _ => []
  | (k, v) :: ds, n, f => if k = n then (k, f v) :: ds else (k, v) :: updEntry ds n f

/-- Removes a key (`dict.pop`). -/
def removeEntry {α : Type} : List (String × α) → String → List (String × α)
  | [], _ => []
  | (k, v) :: ds, n => if k = n then ds else (k, v) :: removeEntry ds n

/-- Assigns `dict[k] = v`: replaces in place when present, appends when
absent (Python dicts keep the original position of an existing key). -/
def upsertEntry {α : Type} : List (String × α) → String → α → List (String × α)
  | [], n, r => [(n, r)]
  | (k, v) :: ds, n, r => if k = n then (k, r) :: ds else (k, v) :: upsertEntry ds n r

/-- Index of the first element satisfying `p` (the row scan loops). -/
def firstIdx {α : Type} (p : α → Bool) : List α → Option Nat
  | [] => none
  | x :: xs => if p x then some 0 else (firstIdx p xs).map (· + 1)

/-- In-place update of the element at an index. -/
def modifyAt {α : Type} : List α → Nat → (α → α) → List α
  | [], _, _ => []
  | x :: xs, 0, f => f x :: xs
  | x :: xs, i + 1, f => x :: modifyAt xs i f

/-- The missing-parts comprehension of `deselectSet`: each buffer row is
`(partNumber, displayed color name, quantity text)`; the color name is
resolved against the palette (a miss is the `None["id"]` crash) and the
quantity parsed with `int`. -/
def flushParts (colors : List (Int × String)) :
    List (String × String × String) → Option (List (String × Int × Int))
  | [] => some []
  | (pt, cn, qt) :: bs =>
    match colorIdByName colors cn with
    | none => none
    | some cid =>
      match pyInt qt with
      | none => none
      | some q => (flushParts colors bs).map ((pt, cid, q) :: ·)

/-- The missing-figs comprehension of `deselectSet`. -/
def flushFigs : List (String × String) → Option (List (String × Int))
  | [] => some []
  | (fg, qt) :: bs =>
    match pyInt qt with
    | none => none
    | some q => (flushFigs bs).map ((fg, q) :: ·)

/-- Appends the default variant: `if "-" not in number: number += "-1"`. -/
def normalizeNum (text : String) : String :=
  if text.data.contains '-' then text else text ++ "-1"

/-- The `updateSetItem` writes for columns 8, 9, 10 of a sets-table row. -/
def setStats (row : TableRow) (a b : Int) (c : Nat) : TableRow :=
  { row with mprts := a, mfigs := b, notesLines := c }

/-- The record store after the three flush assignments `ref[4]`, `ref[5]`,
`ref[6]` of `deselectSet`. -/
def flushedData (s : St) (sel : String) (newParts : List (String × Int × Int))
    (newFigs : List (String × Int)) : List (String × Rec) :=
  updEntry (updEntry (updEntry s.data sel (fun r => { r with mprts := newParts })) sel
    (fun r => { r with mfigs := newFigs })) sel (fun r => { r with notes := s.notesBuf })

/-- Row index rewritten by `deselectSet`: the first row whose number cell
matches the selection, and otherwise the last row, because the Python loop
variable `lasty` keeps its final value when no row matches. -/
def updIdx (s : St) (sel : String) : Nat :=
  (firstIdx (fun row => row.num == sel) s.table).getD (s.table.length - 1)

/-- The cell rewrite applied to that row. -/
def statsUpd (newParts : List (String × Int × Int)) (newFigs : List (String × Int))
    (notes : String) (row : TableRow) : TableRow :=
  setStats row (partsTotal newParts) (figsTotal newFigs) (lineCount notes.data)

/-- Source `Window.deselectSet`: flush the three detail-edit buffers into
the selected record, clear the buffers, rewrite the derived cells of the
selected row (or, when no row matches, of the last row — the Python loop
variable keeps its final value), and toggle the panel, which clears the
selection when the selected number is non-empty (Python truthiness).
A `.error` result is the raised exception, carrying the state at the point
of the raise; the partial mutations performed before a raise are kept. -/
def deselectSet (env : Env) (s : St) : Except St St :=
  match s.selected with
  | none => .error s
  | some sel =>
    match alookup s.data sel with
    | none => .error s
    | some _ =>
      match flushParts env.colors s.partsBuf with
      | none => .error s
      | some newParts =>
        match flushFigs s.figsBuf with
        | none => .error { s with
            data := updEntry s.data sel (fun r => { r with mprts := newParts }),
            partsBuf := [] }
        | some newFigs =>
          match s.table with
          | [] => .error { s with
              data := flushedData s sel newParts newFigs,
              partsBuf := [], figsBuf := [], notesBuf := "" }
          | _ :: _ => .ok { s with
              selected := if sel = "" then some sel else none,
              data := flushedData s sel newParts newFigs,
              table := modifyAt s.table (updIdx s sel)
                (statsUpd newParts newFigs s.notesBuf),
              partsBuf := [], figsBuf := [], notesBuf := "" }

/-- Source `Window.removeSet`: deselect first (unconditionally), then scan
the table for the normalized number; on a hit remove the row and pop the
record, otherwise only show an error message. -/
def removeSet (env : Env) (s : St) (text : String) : Except St St :=
  match deselectSet env s with
  | .error e => .error e
  | .ok s1 =>
    match firstIdx (fun row => row.num == normalizeNum text) s1.table with
    | some i =>
      match alookup s1.data (normalizeNum text) with
      | some _ => .ok { s1 with
          table := s1.table.eraseIdx i,
          data := removeEntry s1.data (normalizeNum text) }
      | none => .error { s1 with table := s1.table.eraseIdx i }
    | none => .ok s1

/-- The zero-initialized record created by `getSet` on success:
`[1, 0, 0, wgh, [], [], ""]`. -/
def freshRec (wgh : Option Int) : Rec where
  qty := 1
  boxes := 0
  ins := 0
  wgh := wgh
  mprts := []
  mfigs := []
  notes := ""

/-- The display row returned by `getSet`, rendered through `addSetRow`;
a `None` weight is displayed as `str(None)`. -/
def newTableRow (number : String) (e : SetEntry) (th : Int × String)
    (wgh : Option Int) : TableRow where
  num := number
  name := e.name
  label := th.2
  qty := "1"
  boxes := "0"
  ins := "0"
  parts := toString e.parts
  weight :=
    match wgh with
    | none => "None"
    | some w => toString w
  mprts := 0
  mfigs := 0
  notesLines := 0

/-- Source `Window.addSet`/`Window.getSet`: look the normalized number up
in the catalog (a miss only shows a message), store a fresh record under
the number — overwriting any existing record — and append a new row at the
bottom of the table.  The weight fetched from the network is a parameter. -/
def addSet (env : Env) (fuel : Nat) (s : St) (text : String) (wgh : Option Int) :
    Except St St :=
  match alookup env.sets (normalizeNum text) with
  | none => .ok s
  | some e =>
    match getTheme env fuel e.themeId with
    | none => .error { s with data := upsertEntry s.data (normalizeNum text) (freshRec wgh) }
    | some th => .ok { s with
        data := upsertEntry s.data (normalizeNum text) (freshRec wgh),
        table := s.table ++ [newTableRow (normalizeNum text) e th wgh] }

/-- The weight field normalization of `Window.save`:
`int(item(y, 7).text() or 0) or None`. -/
def pyWeightField (text : String) : Option (Option Int) :=
  if text = "" then some none
  else (pyInt text).map (fun v => if v = 0 then none else some v)

/-- The per-row loop of `Window.save`: re-reads quantity, boxes,
instructions and weight from the displayed cells into the owning record,
field by field (a parse failure leaves the earlier fields of the row
already written). -/
def saveRows : List TableRow → List (String × Rec) →
    Except (List (String × Rec)) (List (String × Rec))
  | [], data => .ok data
  | row :: rows, data =>
    match alookup data row.num with
    | none => .error data
    | some _ =>
      match pyInt row.qty with
      | none => .error data
      | some q =>
        let d1 := updEntry data row.num (fun r => { r with qty := q })
        match pyInt row.boxes with
        | none => .error d1
        | some b =>
          let d2 := updEntry d1 row.num (fun r => { r with boxes := b })
          match pyInt row.ins with
          | none => .error d2
          | some i =>
            let d3 := updEntry d2 row.num (fun r => { r with ins := i })
            match pyWeightField row.weight with
            | none => .error d3
            | some w => saveRows rows (updEntry d3 row.num (fun r => { r with wgh := w }))

/-- The leading `if self.selected: self.deselectSet()` of `Window.save`
(Python truthiness: `None` and the empty string are falsy). -/
def preSave (env : Env) (s : St) : Except St St :=
  match s.selected with
  | some n => if n = "" then .ok s else deselectSet env s
  | none => .ok s

/-- Source `Window.save`: deselect when the selection is truthy, sync every
table row back into its record, and return the persisted dump
`[[k, *v] for k, v in originalData.items()]` alongside the final state. -/
def save (env : Env) (s : St) : Except St (St × List (String × Rec)) :=
  match preSave env s with
  | .error e => .error e
  | .ok s1 =>
    match saveRows s1.table s1.data with
    | .error d => .error { s1 with data := d }
    | .ok d => .ok ({ s1 with data := d }, d)

/-- Rendering of a weight cell value through `updateSetItem`'s `str`. -/
def weightCellText : Option Int → String
  | none => ""
  | some w => toString w

/-! ### Status bar totals (`Window.updateStatusBar`) -/

/-- Accumulator of the single pass over `completeData`. -/
structure Tot where
  tbxs : Int
  tins : Int
  tprts : Int
  n : Int
  twgh : Int
  nwgh : Int
  thms : Finset String
  tmprts : Int
  tmfigs : Int

/-- One loop iteration of `updateStatusBar`; the weight cell is counted only
when truthy (non-empty and non-zero). -/
def statusStep (acc : Tot) (r : Row) : Tot where
  tbxs := acc.tbxs + r.boxes
  tins := acc.tins + r.ins
  tprts := acc.tprts + r.parts * r.qty
  n := acc.n + r.qty
  twgh := if r.weight.getD 0 ≠ 0 then acc.twgh + r.weight.getD 0 * r.qty else acc.twgh
  nwgh := if r.weight.getD 0 ≠ 0 then acc.nwgh + r.qty else acc.nwgh
  thms := insert r.theme.2 acc.thms
  tmprts := acc.tmprts + r.mprts
  tmfigs := acc.tmfigs + r.mfigs

/-- Zero-initialized accumulator. -/
def initTot : Tot where
  tbxs := 0
  tins := 0
  tprts := 0
  n := 0
  twgh := 0
  nwgh := 0
  thms := ∅
  tmprts := 0
  tmfigs := 0

/-- Python `round` on an exact rational: round half to even. -/
def pyRound (q : ℚ) : ℤ :=
  if q - ⌊q⌋ < 1 / 2 then ⌊q⌋
  else if 1 / 2 < q - ⌊q⌋ then ⌊q⌋ + 1
  else if ⌊q⌋ % 2 = 0 then ⌊q⌋ else ⌊q⌋ + 1

/-- The figures displayed in the status bar. -/
structure Summary where
  setCount : Int
  rowCount : Nat
  netParts : Int
  weightKg : ℤ
  totalBoxes : Int
  totalIns : Int
  themeCount : Nat
  totalMissingParts : Int
  totalMissingFigs : Int

/-- Source `Window.updateStatusBar` as a pure function of the composite
rows: a single fold followed by the displayed arithmetic. -/
def updateStatusBar (rows : List Row) : Summary :=
  let t := rows.foldl statusStep initTot
  { setCount := t.n
    rowCount := rows.length
    netParts := t.tprts - t.tmprts
    weightKg := pyRound ((t.twgh : ℚ) / 1000)
    totalBoxes := t.tbxs
    totalIns := t.tins
    themeCount := t.thms.card
    totalMissingParts := t.tmprts
    totalMissingFigs := t.tmfigs }

/-! ### Helper lemmas about the store and table operations -/

theorem updEntry_fst {α : Type} (d : List (String × α)) (n : String) (f : α → α) :
    (updEntry d n f).map Prod.fst = d.map Prod.fst := by
  induction d with
  | nil => rfl
  | cons kv ds ih =>
    obtain ⟨k, v⟩ := kv
    by_cases h : k = n
    · simp [updEntry, h]
    · simp [updEntry, h, ih]

theorem alookup_updEntry_self {α : Type} (d : List (String × α)) (n : String) (f : α → α) :
    alookup (updEntry d n f) n = (alookup d n).map f := by
  induction d with
  | nil => rfl
  | cons kv ds ih =>
    obtain ⟨k, v⟩ := kv
    by_cases h : k = n
    · simp [updEntry, alookup, h]
    · simp [updEntry, alookup, h, ih]

theorem alookup_updEntry_ne {α : Type} (d : List (String × α)) (n k : String)
    (f : α → α) (h : k ≠ n) :
    alookup (updEntry d n f) k = alookup d k := by
  induction d with
  | nil => rfl
  | cons kv ds ih =>
    obtain ⟨k', v⟩ := kv
    by_cases h' : k' = n
    · subst h'
      have : ¬ (k' = k) := fun he => h (he ▸ rfl)
      simp [updEntry, alookup, this]
    · by_cases h'' : k' = k
      · subst h''; simp [updEntry, alookup, h']
      · simp [updEntry, alookup, h', h'', ih]

theorem removeEntry_fst_not_mem {α : Type} (d : List (String × α)) (n : String)
    (h : (d.map Prod.fst).Nodup) : n ∉ (removeEntry d n).map Prod.fst := by
  induction d with
  | nil => simp [removeEntry]
  | cons kv ds ih =>
    obtain ⟨k, v⟩ := kv
    simp only [List.map_cons, List.nodup_cons] at h
    by_cases hk : k = n
    · subst hk
      rw [show removeEntry ((k, v) :: ds) k = ds by simp [removeEntry]]
      exact h.1
    · rw [show removeEntry ((k, v) :: ds) n = (k, v) :: removeEntry ds n by
        simp [removeEntry, hk]]
      simp only [List.map_cons, List.mem_cons]
      intro hc
      rcases hc with hc | hc
      · exact hk hc.symm
      · exact ih h.2 hc

theorem alookup_eq_none_of_not_mem {α : Type} (d : List (String × α)) (k : String)
    (h : k ∉ d.map Prod.fst) : alookup d k = none := by
  induction d with
  | nil => rfl
  | cons kv ds ih =>
    obtain ⟨k', v⟩ := kv
    simp only [List.map_cons, List.mem_cons] at h
    push_neg at h
    have : ¬ (k' = k) := fun he => h.1 (he ▸ rfl)
    simp [alookup, this, ih h.2]

theorem alookup_mem_fst {α : Type} (d : List (String × α)) (k : String) (v : α)
    (h : alookup d k = some v) : k ∈ d.map Prod.fst := by
  induction d with
  | nil => simp [alookup] at h
  | cons kv ds ih =>
    obtain ⟨k', v'⟩ := kv
    by_cases h' : k' = k
    · simp [h']
    · rw [show alookup ((k', v') :: ds) k = alookup ds k by simp [alookup, h']] at h
      simp [ih h]

theorem firstIdx_lt {α : Type} (p : α → Bool) :
    ∀ (l : List α) (i : Nat), firstIdx p l = some i → i < l.length := by
  intro l
  induction l with
  | nil => intro i h; simp [firstIdx] at h
  | cons x xs ih =>
    intro i h
    by_cases hx : p x
    · rw [show firstIdx p (x :: xs) = some 0 by simp [firstIdx, hx]] at h
      injection h with h
      subst h
      simp
    · rw [show firstIdx p (x :: xs) = (firstIdx p xs).map (· + 1) by
        simp [firstIdx, hx]] at h
      cases hr : firstIdx p xs with
      | none => rw [hr] at h; exact absurd h (by simp)
      | some j =>
        rw [hr] at h
        simp only [Option.map_some', Option.some.injEq] at h
        have := ih j hr
        simp only [List.length_cons]
        omega

theorem modifyAt_getElem? {α : Type} :
    ∀ (l : List α) (i : Nat) (f : α → α), (modifyAt l i f)[i]? = (l[i]?).map f := by
  intro l
  induction l with
  | nil => intro i f; simp [modifyAt]
  | cons x xs ih =>
    intro i f
    cases i with
    | zero => simp [modifyAt]
    | succ j => simpa [modifyAt] using ih j f

theorem modifyAt_map {α β : Type} (g : α → β) (f : α → α) (hf : ∀ x, g (f x) = g x) :
    ∀ (l : List α) (i : Nat), (modifyAt l i f).map g = l.map g := by
  intro l
  induction l with
  | nil => intro i; rfl
  | cons x xs ih =>
    intro i
    cases i with
    | zero => simp [modifyAt, hf]
    | succ j => simp [modifyAt, ih j]

/-- Dissection of a successful `deselectSet`: the hypotheses that held on
entry and the exact resulting state. -/
theorem deselectSet_ok (env : Env) (s s1 : St) (hok : deselectSet env s = .ok s1) :
    ∃ sel rec0 newParts newFigs,
      s.selected = some sel ∧
      alookup s.data sel = some rec0 ∧
      flushParts env.colors s.partsBuf = some newParts ∧
      flushFigs s.figsBuf = some newFigs ∧
      (∃ hd tl, s.table = hd :: tl) ∧
      s1 = { s with
             selected := if sel = "" then some sel else none,
             data := flushedData s sel newParts newFigs,
             table := modifyAt s.table (updIdx s sel)
               (statsUpd newParts newFigs s.notesBuf),
             partsBuf := [], figsBuf := [], notesBuf := "" } := by
  unfold deselectSet at hok
  split at hok
  · exact absurd hok (by simp)
  · rename_i sel hsel
    split at hok
    · exact absurd hok (by simp)
    · rename_i rec0 hrec
      split at hok
      · exact absurd hok (by simp)
      · rename_i newParts hparts
        split at hok
        · exact absurd hok (by simp)
        · rename_i newFigs hfigs
          cases htab : s.table with
          | nil => rw [htab] at hok; exact Except.noConfusion hok
          | cons hd tl =>
            rw [htab] at hok
            refine ⟨sel, rec0, newParts, newFigs, hsel, hrec, hparts, hfigs, ⟨hd, tl, rfl⟩, ?_⟩
            injection hok with hok
            exact hok.symm

theorem alookup_of_mem_nodup {α : Type} (d : List (String × α)) (k : String) (v : α)
    (hnd : (d.map Prod.fst).Nodup) (hmem : (k, v) ∈ d) : alookup d k = some v := by
  induction d with
  | nil => simp at hmem
  | cons kv ds ih =>
    obtain ⟨k', v'⟩ := kv
    simp only [List.map_cons, List.nodup_cons] at hnd
    rcases List.mem_cons.1 hmem with hmem | hmem
    · injection hmem with h1 h2
      subst h1
      subst h2
      simp [alookup]
    · by_cases hk : k' = k
      · subst hk
        exact absurd (List.mem_map.2 ⟨(k', v), hmem, rfl⟩) hnd.1
      · rw [show alookup ((k', v') :: ds) k = alookup ds k by simp [alookup, hk]]
        exact ih hnd.2 hmem

theorem flushedData_fst (s : St) (sel : String) (np : List (String × Int × Int))
    (nf : List (String × Int)) :
    (flushedData s sel np nf).map Prod.fst = s.data.map Prod.fst := by
  unfold flushedData
  rw [updEntry_fst, updEntry_fst, updEntry_fst]

theorem flushedData_lookup (s : St) (sel : String) (np : List (String × Int × Int))
    (nf : List (String × Int)) (rec0 : Rec) (h : alookup s.data sel = some rec0) :
    alookup (flushedData s sel np nf) sel =
      some { rec0 with mprts := np, mfigs := nf, notes := s.notesBuf } := by
  unfold flushedData
  rw [alookup_updEntry_self, alookup_updEntry_self, alookup_updEntry_self, h]
  rfl

theorem firstIdx_congr {α : Type} (p : α → Bool) (f : α → α) (hp : ∀ x, p (f x) = p x) :
    ∀ (l : List α) (i : Nat), firstIdx p (modifyAt l i f) = firstIdx p l := by
  intro l
  induction l with
  | nil => intro i; rfl
  | cons x xs ih =>
    intro i
    cases i with
    | zero => simp [modifyAt, firstIdx, hp]
    | succ j => simp [modifyAt, firstIdx, ih j]

theorem normalizeNum_ne_empty (text : String) : normalizeNum text ≠ "" := by
  unfold normalizeNum
  by_cases h : text.data.contains '-'
  · rw [if_pos h]
    intro he
    rw [he] at h
    exact absurd h (by decide)
  · rw [if_neg h]
    intro he
    have := congrArg String.data he
    rw [String.data_append] at this
    simp at this

theorem pyWeightField_ne_zero (text : String) (w : Option Int)
    (h : pyWeightField text = some w) : w ≠ some 0 := by
  unfold pyWeightField at h
  by_cases ht : text = ""
  · rw [if_pos ht] at h
    injection h with h
    subst h
    simp
  · rw [if_neg ht] at h
    cases hp : pyInt text with
    | none => rw [hp] at h; exact absurd h (by simp)
    | some v =>
      rw [hp] at h
      simp only [Option.map_some', Option.some.injEq] at h
      subst h
      by_cases hv : v = 0
      · simp [hv]
      · simp [hv]

theorem saveRows_fst : ∀ (rows : List TableRow) (d d' : List (String × Rec)),
    saveRows rows d = .ok d' → d'.map Prod.fst = d.map Prod.fst := by
  intro rows
  induction rows with
  | nil =>
    intro d d' h
    simp only [saveRows] at h
    injection h with h
    rw [h]
  | cons row rows ih =>
    intro d d' h
    simp only [saveRows] at h
    split at h
    · exact absurd h (by simp)
    · split at h
      · exact absurd h (by simp)
      · split at h
        · exact absurd h (by simp)
        · split at h
          · exact absurd h (by simp)
          · split at h
            · exact absurd h (by simp)
            · rw [ih _ _ h, updEntry_fst, updEntry_fst, updEntry_fst, updEntry_fst]

theorem saveRows_lookup_of_not_mem :
    ∀ (rows : List TableRow) (d d' : List (String × Rec)) (k : String),
      saveRows rows d = .ok d' → (∀ row ∈ rows, row.num ≠ k) →
      alookup d' k = alookup d k := by
  intro rows
  induction rows with
  | nil =>
    intro d d' k h _
    simp only [saveRows] at h
    injection h with h
    rw [h]
  | cons row rows ih =>
    intro d d' k h hk
    have hne : row.num ≠ k := hk row (by simp)
    have hkne : k ≠ row.num := fun he => hne he.symm
    simp only [saveRows] at h
    split at h
    · exact absurd h (by simp)
    · split at h
      · exact absurd h (by simp)
      · split at h
        · exact absurd h (by simp)
        · split at h
          · exact absurd h (by simp)
          · split at h
            · exact absurd h (by simp)
            · rw [ih _ _ k h (fun r hr => hk r (by simp [hr]))]
              rw [alookup_updEntry_ne _ _ _ _ hkne, alookup_updEntry_ne _ _ _ _ hkne,
                alookup_updEntry_ne _ _ _ _ hkne, alookup_updEntry_ne _ _ _ _ hkne]

theorem saveRows_weight :
    ∀ (rows : List TableRow) (d d' : List (String × Rec)),
      saveRows rows d = .ok d' → ∀ k, (∃ row ∈ rows, row.num = k) →
      ∀ r, alookup d' k = some r → r.wgh ≠ some 0 := by
  intro rows
  induction rows with
  | nil =>
    intro d d' h k hex
    simp at hex
  | cons row rows ih =>
    intro d d' h k hex r hr
    simp only [saveRows] at h
    split at h
    · exact absurd h (by simp)
    · split at h
      · exact absurd h (by simp)
      · split at h
        · exact absurd h (by simp)
        · split at h
          · exact absurd h (by simp)
          · split at h
            · exact absurd h (by simp)
            · rename_i w hw
              by_cases hrest : ∃ row' ∈ rows, row'.num = k
              · exact ih _ _ h k hrest r hr
              · rcases hex with ⟨row', hrow', hnum⟩
                rcases List.mem_cons.1 hrow' with hrow' | hrow'
                · subst hrow'
                  push_neg at hrest
                  have hnot : ∀ r' ∈ rows, r'.num ≠ k := hrest
                  rw [saveRows_lookup_of_not_mem rows _ d' k h hnot] at hr
                  rw [← hnum, alookup_updEntry_self] at hr
                  cases hl : alookup (updEntry (updEntry (updEntry d row'.num
                      (fun r => { r with qty := _ })) row'.num
                      (fun r => { r with boxes := _ })) row'.num
                      (fun r => { r with ins := _ })) row'.num with
                  | none => rw [hl] at hr; exact absurd hr (by simp)
                  | some r0 =>
                    rw [hl] at hr
                    simp only [Option.map_some', Option.some.injEq] at hr
                    subst hr
                    simpa using pyWeightField_ne_zero _ _ hw
                · exact absurd ⟨row', hrow', hnum⟩ hrest

/-! ### Claims -/

/-- A fresh empty example record used by the concrete instances below. -/
def exRec : Rec where
  qty := 1
  boxes := 0
  ins := 0
  wgh := none
  mprts := []
  mfigs := []
  notes := ""

/-- Follows the spec's words for the claimed within-group comparison:
parse the base catalog digits and the variant digits as two integers. -/
def specNumPair (s : String) : Option (Nat × Nat) :=
  match s.data.span (· ≠ '-') with
  | (_, []) => none
  | (base, _ :: varp) =>
    if base.isEmpty || varp.isEmpty || varp.contains '-' then none
    else
      match digitsVal base with
      | none => none
      | some b => (digitsVal varp).map (fun v => (b, v))

/-- Follows the spec's words: order set numbers by comparing the two parsed
integers in sequence. -/
def specNumLt (a b : String) : Bool :=
  match specNumPair a, specNumPair b with
  | some pa, some pb =>
    decide (pa.1 < pb.1) || (pa.1 == pb.1 && decide (pa.2 < pb.2))
  | _, _ => false

def c1exEnv : Env where
  sets := [("10-1", ⟨"SetB", none, "1", 10⟩), ("20-1", ⟨"SetA", none, "2", 20⟩)]
  themes := []
  mains := [("1", ("B", 0)), ("2", ("A", 5))]
  colors := []

def c1exData : List (String × Rec) := [("10-1", exRec), ("20-1", exRec)]

def c1exOut : List Row :=
  [⟨"20-1", "SetA", (5, "A"), 1, 0, 0, 20, none, 0, 0, 0⟩,
   ⟨"10-1", "SetB", (0, "B"), 1, 0, 0, 10, none, 0, 0, 0⟩]

/-- C1 (counterexample): with root themes `B` (sort key 0) and `A` (sort
key 5), `complete` puts the `A` group first — the group order follows the
lexicographic label alone and ignores the sort key, so the groups are not
in ascending sort-key order. -/
theorem c1_sortkey_order_refuted :
    (complete c1exEnv 2 c1exData).map (fun rs => rs.map (fun r => (r.num, r.theme.1))) =
      some [("20-1", 5), ("10-1", 0)] ∧ ¬ ((5 : Int) ≤ 0) :=
  ⟨by decide, by decide⟩

/-- C1 (amended): the ordered sequence produced by `complete` groups rows
by resolved theme label and orders the groups by ascending lexicographic
theme label only; the theme sort key plays no role.  Formally, the sequence
of theme labels along the output is lexicographically nondecreasing. -/
theorem c1_groups_sorted_by_label_only (env : Env) (fuel : Nat)
    (data : List (String × Rec)) (out : List Row)
    (h : complete env fuel data = some out) :
    (out.map (fun r => r.theme.2)).Pairwise (fun a b => strLe a b = true) :=
  complete_labels_sorted env fuel data out h

/-- C1 (witness): the amended theorem at the concrete two-theme catalog. -/
theorem c1_witness :
    complete c1exEnv 2 c1exData = some c1exOut ∧
    (c1exOut.map (fun r => r.theme.2)).Pairwise (fun a b => strLe a b = true) :=
  ⟨by decide, c1_groups_sorted_by_label_only c1exEnv 2 c1exData c1exOut (by decide)⟩

def c4exEnv : Env where
  sets := [("5-11", ⟨"A", none, "1", 1⟩), ("5-2", ⟨"B", none, "1", 2⟩)]
  themes := []
  mains := [("1", ("T", 0))]
  colors := []

def c4exData : List (String × Rec) := [("5-11", exRec), ("5-2", exRec)]

def c4exOut : List Row :=
  [⟨"5-11", "A", (0, "T"), 1, 0, 0, 1, none, 0, 0, 0⟩,
   ⟨"5-2", "B", (0, "T"), 1, 0, 0, 2, none, 0, 0, 0⟩]

/-- C4 (counterexample): inside one theme group the code puts `5-11`
(value 5.11) before `5-2` (value 5.2), while the claimed comparison of base
and variant as two integers in sequence orders `5-2` strictly first — the
two orderings are not equivalent and the code follows the decimal one. -/
theorem c4_twoint_order_refuted :
    (complete c4exEnv 2 c4exData).map (fun rs => rs.map (fun r => (r.num, r.theme.2))) =
      some [("5-11", "T"), ("5-2", "T")] ∧
    specNumLt "5-2" "5-11" = true ∧ specNumLt "5-11" "5-2" = false :=
  ⟨by decide, by decide, by decide⟩

/-- C4 (amended): within a theme group, rows are ordered by the numeric
value obtained by replacing the variant separator with a decimal point and
comparing as exact decimal numbers (the `readFloat` key) — which is not, in
general, the two-integers-in-sequence comparison.  For any two output rows
of the same group the keys are nondecreasing, and the claim's examples
hold: `9-1` sorts before `10-1` and `70-1` before `100-1`. -/
theorem c4_rows_sorted_by_decimal_value (env : Env) (fuel : Nat)
    (data : List (String × Rec)) (out : List Row)
    (h : complete env fuel data = some out) :
    out.Pairwise (fun x y => x.theme.2 = y.theme.2 →
      ∀ a b, readFloat x.num = some a → readFloat y.num = some b →
        keyVal a ≤ keyVal b) ∧
    (∀ a b, readFloat "9-1" = some a → readFloat "10-1" = some b →
      keyVal a < keyVal b) ∧
    (∀ a b, readFloat "70-1" = some a → readFloat "100-1" = some b →
      keyVal a < keyVal b) := by
  refine ⟨complete_rows_key_sorted env fuel data out h, ?_, ?_⟩
  · intro a b ha hb
    rw [show readFloat "9-1" = some ⟨(91, 10), by norm_num⟩ from by decide] at ha
    rw [show readFloat "10-1" = some ⟨(101, 10), by norm_num⟩ from by decide] at hb
    injection ha with ha
    injection hb with hb
    subst ha
    subst hb
    unfold keyVal
    norm_num
  · intro a b ha hb
    rw [show readFloat "70-1" = some ⟨(701, 10), by norm_num⟩ from by decide] at ha
    rw [show readFloat "100-1" = some ⟨(1001, 10), by norm_num⟩ from by decide] at hb
    injection ha with ha
    injection hb with hb
    subst ha
    subst hb
    unfold keyVal
    norm_num

/-- C4 (witness): the amended theorem at the concrete one-group catalog. -/
theorem c4_witness :
    complete c4exEnv 2 c4exData = some c4exOut ∧
    (c4exOut.Pairwise (fun x y => x.theme.2 = y.theme.2 →
      ∀ a b, readFloat x.num = some a → readFloat y.num = some b →
        keyVal a ≤ keyVal b) ∧
    (∀ a b, readFloat "9-1" = some a → readFloat "10-1" = some b →
      keyVal a < keyVal b) ∧
    (∀ a b, readFloat "70-1" = some a → readFloat "100-1" = some b →
      keyVal a < keyVal b)) :=
  ⟨by decide, c4_rows_sorted_by_decimal_value c4exEnv 2 c4exData c4exOut (by decide)⟩

def c2exEnv : Env where
  sets := []
  themes := []
  mains := []
  colors := [(11, "Black")]

def c2exSt : St where
  selected := some ""
  data := [("", exRec)]
  table := [⟨"", "S", "L", "1", "0", "0", "5", "", 0, 0, 0⟩]
  partsBuf := [("3001", "Black", "2")]
  figsBuf := []
  notesBuf := ""

def c2exSt1 : St where
  selected := some ""
  data := [("", ⟨1, 0, 0, none, [("3001", 11, 2)], [], ""⟩)]
  table := [⟨"", "S", "L", "1", "0", "0", "5", "", 2, 0, 0⟩]
  partsBuf := []
  figsBuf := []
  notesBuf := ""

def c2exSt2 : St where
  selected := some ""
  data := [("", exRec)]
  table := [⟨"", "S", "L", "1", "0", "0", "5", "", 0, 0, 0⟩]
  partsBuf := []
  figsBuf := []
  notesBuf := ""

/-- C2 (counterexample): with the degenerate empty-string set number the
panel toggle leaves the selection in place (Python truthiness), so a second
flush succeeds and overwrites the record's missing-parts list with the
cleared buffers: the record differs from its value after the first flush. -/
theorem c2_flush_twice_refuted :
    deselectSet c2exEnv c2exSt = .ok c2exSt1 ∧
    deselectSet c2exEnv c2exSt1 = .ok c2exSt2 ∧
    alookup c2exSt2.data "" ≠ alookup c2exSt1.data "" :=
  ⟨rfl, rfl, by decide⟩

/-- C2 (amended): for a selected record with a non-empty set number, the
first flush clears the selection, so a second flush raises immediately on
the missing selection before mutating anything: the error carries exactly
the post-first-flush state, whose records and rows are unchanged. -/
theorem c2_second_flush_fails_unchanged (env : Env) (s s1 : St) (sel : String)
    (h0 : s.selected = some sel) (hne : sel ≠ "")
    (hok : deselectSet env s = .ok s1) :
    deselectSet env s1 = .error s1 := by
  obtain ⟨sel', rec0, np, nf, hs0, _, _, _, _, hs1⟩ := deselectSet_ok env s s1 hok
  have hsel' : sel' = sel := by
    rw [h0] at hs0
    injection hs0 with h
    exact h.symm
  subst hsel'
  have hsel1 : s1.selected = none := by
    rw [hs1]
    simp [hne]
  unfold deselectSet
  rw [hsel1]

def c2wSt : St where
  selected := some "1-1"
  data := [("1-1", exRec)]
  table := [⟨"1-1", "S", "T", "1", "0", "0", "5", "", 0, 0, 0⟩]
  partsBuf := []
  figsBuf := []
  notesBuf := ""

def c2wSt1 : St where
  selected := none
  data := [("1-1", exRec)]
  table := [⟨"1-1", "S", "T", "1", "0", "0", "5", "", 0, 0, 0⟩]
  partsBuf := []
  figsBuf := []
  notesBuf := ""

/-- C2 (witness): the amended theorem at a concrete one-record state. -/
theorem c2_witness :
    c2wSt.selected = some "1-1" ∧ ("1-1" : String) ≠ "" ∧
    deselectSet c2exEnv c2wSt = .ok c2wSt1 ∧
    deselectSet c2exEnv c2wSt1 = .error c2wSt1 :=
  ⟨rfl, by decide, rfl,
    c2_second_flush_fails_unchanged c2exEnv c2wSt c2wSt1 "1-1" rfl (by decide) rfl⟩

def c8exEnv : Env where
  sets := []
  themes := []
  mains := []
  colors := []

def c8exSt : St where
  selected := none
  data := [("1-1", exRec)]
  table := [⟨"1-1", "S", "T", "1", "0", "0", "5", "", 0, 0, 0⟩]
  partsBuf := []
  figsBuf := []
  notesBuf := ""

/-- C8 (code bug): with no selection, `deselectSet` raises a `KeyError`
looking up `originalData[None]` instead of being a no-op, and `removeSet`
calls it unguarded — so removing with nothing selected crashes; the raise
happens before any mutation, so the error carries the unchanged state. -/
theorem c8_deselect_without_selection_raises :
    deselectSet c8exEnv c8exSt = .error c8exSt ∧
    removeSet c8exEnv c8exSt "1-1" = .error c8exSt :=
  ⟨rfl, rfl⟩

def c6exEnv : Env where
  sets := [("1-1", ⟨"S", none, "1", 5⟩)]
  themes := []
  mains := [("1", ("T", 7))]
  colors := []

def c6exOld : Rec where
  qty := 5
  boxes := 1
  ins := 2
  wgh := some 100
  mprts := [("p", 11, 1)]
  mfigs := []
  notes := "note"

def c6exSt : St where
  selected := none
  data := [("1-1", c6exOld)]
  table := []
  partsBuf := []
  figsBuf := []
  notesBuf := ""

def c6exSt' : St where
  selected := none
  data := [("1-1", freshRec none)]
  table := [⟨"1-1", "S", "T", "1", "0", "0", "5", "None", 0, 0, 0⟩]
  partsBuf := []
  figsBuf := []
  notesBuf := ""

/-- C6 (counterexample): adding a set whose number is already present does
not fail with any duplicate error — it succeeds, silently resets the stored
record to the fresh zero-initialized one, and appends a duplicate display
row. -/
theorem c6_duplicate_error_refuted :
    alookup c6exSt.data "1-1" = some c6exOld ∧
    addSet c6exEnv 2 c6exSt "1-1" none = .ok c6exSt' ∧
    alookup c6exSt'.data "1-1" = some (freshRec none) ∧
    freshRec none ≠ c6exOld :=
  ⟨rfl, rfl, rfl, by decide⟩

/-- C6 (amended): whenever the normalized number is in the catalog and its
theme resolves, `addSet` succeeds unconditionally — whether or not the
number is already stored — replacing the stored record in place with the
fresh zero-initialized one and appending a new display row at the bottom. -/
theorem c6_add_overwrites (env : Env) (fuel : Nat) (s : St) (text : String)
    (wgh : Option Int) (e : SetEntry) (th : Int × String)
    (hset : alookup env.sets (normalizeNum text) = some e)
    (hth : getTheme env fuel e.themeId = some th) :
    addSet env fuel s text wgh = .ok { s with
      data := upsertEntry s.data (normalizeNum text) (freshRec wgh),
      table := s.table ++ [newTableRow (normalizeNum text) e th wgh] } := by
  unfold addSet
  simp only [hset, hth]

/-- C6 (witness): the amended theorem at the concrete duplicate state. -/
theorem c6_witness :
    addSet c6exEnv 2 c6exSt "1-1" none = .ok { c6exSt with
      data := upsertEntry c6exSt.data (normalizeNum "1-1") (freshRec none),
      table := c6exSt.table ++ [newTableRow (normalizeNum "1-1") ⟨"S", none, "1", 5⟩ (7, "T") none] } :=
  c6_add_overwrites c6exEnv 2 c6exSt "1-1" none ⟨"S", none, "1", 5⟩ (7, "T")
    (by decide) (by decide)

/-- C9: if the parent chain from a theme id reaches a root theme within `k`
hops, `getTheme` terminates with any fuel above `k` and returns the root
theme's sort key paired with the `": "`-join of a name path that starts at
the root theme's name and ends in the leaf theme's own name segment. -/
theorem c9_resolve_terminates (env : Env) (k : Nat) (t : String)
    (h : resolvesB env k t = true) (fuel : Nat) (hf : k < fuel) :
    ∃ c rootName path,
      getTheme env fuel t = some (c, String.intercalate ": " path) ∧
      rootMain env fuel t = some (rootName, c) ∧
      path.head? = some rootName ∧
      path.getLast? = some (leafName env t) := by
  obtain ⟨c, rootName, path, hhd, hlast, hroot, haux⟩ := getThemeAux_resolves env k t h
  refine ⟨c, rootName, path, ?_, hroot fuel hf, hhd, hlast⟩
  unfold getTheme
  have := haux fuel [] hf
  rw [List.append_nil] at this
  exact this

def c9exEnv : Env where
  sets := []
  themes := [("2", ("Leaf", "1"))]
  mains := [("1", ("Root", 7))]
  colors := []

/-- C9 (witness): a two-level chain `Leaf → Root` resolves with fuel 2. -/
theorem c9_witness :
    resolvesB c9exEnv 1 "2" = true ∧ 1 < 2 ∧
    (∃ c rootName path,
      getTheme c9exEnv 2 "2" = some (c, String.intercalate ": " path) ∧
      rootMain c9exEnv 2 "2" = some (rootName, c) ∧
      path.head? = some rootName ∧
      path.getLast? = some (leafName c9exEnv "2")) :=
  ⟨by decide, by decide, c9_resolve_terminates c9exEnv 1 "2" (by decide) 2 (by decide)⟩

/-- C5: a successful flush leaves, at the rewritten table row, exactly the
sum of the flushed missing-part quantities, the sum of the flushed
missing-fig quantities, and the line count of the flushed notes — where the
line count of the empty string is 0 and a trailing non-terminated line
counts as 1. -/
theorem c5_row_totals_after_flush (env : Env) (s s1 : St) (sel : String)
    (h0 : s.selected = some sel) (hok : deselectSet env s = .ok s1) :
    (∃ (i : Nat) (row : TableRow) (r : Rec),
      s1.table[i]? = some row ∧ alookup s1.data sel = some r ∧
      row.mprts = partsTotal r.mprts ∧ row.mfigs = figsTotal r.mfigs ∧
      row.notesLines = lineCount r.notes.data) ∧
    lineCount "".data = 0 ∧ lineCount "a".data = 1 ∧ lineCount "a\nb".data = 2 := by
  obtain ⟨sel', rec0, np, nf, hs0, hrec, _, _, ⟨hd, tl, htab⟩, hs1⟩ :=
    deselectSet_ok env s s1 hok
  rw [h0] at hs0
  injection hs0 with hsel'
  subst hsel'
  have hlen : 0 < s.table.length := by rw [htab]; simp
  have hidx : updIdx s sel < s.table.length := by
    unfold updIdx
    cases hfi : firstIdx (fun row => row.num == sel) s.table with
    | none =>
      simp only [hfi, Option.getD_none]
      omega
    | some j =>
      simp only [hfi, Option.getD_some]
      exact firstIdx_lt _ _ _ hfi
  have hrow : s1.table[updIdx s sel]? =
      some (statsUpd np nf s.notesBuf (s.table.get ⟨updIdx s sel, hidx⟩)) := by
    rw [hs1]
    show (modifyAt s.table (updIdx s sel) (statsUpd np nf s.notesBuf))[updIdx s sel]? = _
    rw [modifyAt_getElem?, List.getElem?_eq_getElem hidx]
    rfl
  have hlook : alookup s1.data sel =
      some { rec0 with mprts := np, mfigs := nf, notes := s.notesBuf } := by
    rw [hs1]
    show alookup (flushedData s sel np nf) sel = _
    exact flushedData_lookup s sel np nf rec0 hrec
  exact ⟨⟨updIdx s sel, statsUpd np nf s.notesBuf (s.table.get ⟨updIdx s sel, hidx⟩),
    { rec0 with mprts := np, mfigs := nf, notes := s.notesBuf },
    hrow, hlook, rfl, rfl, rfl⟩, by decide, by decide, by decide⟩

def c3exEnv : Env where
  sets := [("1-1", ⟨"S", none, "1", 0⟩)]
  themes := []
  mains := [("1", ("T", 0))]
  colors := [(11, "Black")]

def c3exSt : St where
  selected := some "1-1"
  data := [("1-1", exRec)]
  table := [⟨"1-1", "S", "T", "1", "0", "0", "5", "", 0, 0, 0⟩]
  partsBuf := [("3001", "Nope", "1")]
  figsBuf := []
  notesBuf := ""

/-- C3 (counterexample): removing the currently selected set runs the
flush first; with a pending buffer row naming an unknown color the flush
raises (`None["id"]`), the whole removal aborts with the state unchanged,
and the record is not removed — refuting removal-without-flush. -/
theorem c3_no_flush_refuted :
    c3exSt.selected = some "1-1" ∧
    removeSet c3exEnv c3exSt "1-1" = .error c3exSt ∧
    alookup c3exSt.data "1-1" = some exRec :=
  ⟨rfl, rfl, rfl⟩

/-- C3 (amended): removing the currently selected set first flushes the
detail-edit buffers into the record (so the buffers must validate); when
the flush succeeds and the set has a table row, the selection moves to
no-selection, the buffers are left cleared, the record is removed from the
store, and the set no longer appears in `complete`'s output over the
resulting store. -/
theorem c3_remove_selected (env : Env) (s s' : St) (text : String)
    (hnd : (s.data.map Prod.fst).Nodup)
    (hsel : s.selected = some (normalizeNum text))
    (hrow : (firstIdx (fun row => row.num == normalizeNum text) s.table).isSome)
    (hok : removeSet env s text = .ok s') :
    s'.selected = none ∧
    s'.partsBuf = [] ∧ s'.figsBuf = [] ∧ s'.notesBuf = "" ∧
    alookup s'.data (normalizeNum text) = none ∧
    (∀ fuel rows, complete env fuel s'.data = some rows →
      ∀ r ∈ rows, r.num ≠ normalizeNum text) := by
  unfold removeSet at hok
  split at hok
  · exact absurd hok (by simp)
  · rename_i s1 hds
    obtain ⟨sel', rec0, np, nf, hs0, hrec, _, _, _, hs1⟩ := deselectSet_ok env s s1 hds
    rw [hsel] at hs0
    injection hs0 with hsel'
    subst hsel'
    have htabeq : firstIdx (fun row => row.num == normalizeNum text) s1.table =
        firstIdx (fun row => row.num == normalizeNum text) s.table := by
      rw [hs1]
      show firstIdx _ (modifyAt s.table (updIdx s (normalizeNum text))
        (statsUpd np nf s.notesBuf)) = _
      exact firstIdx_congr (fun row => row.num == normalizeNum text)
        (statsUpd np nf s.notesBuf) (fun x => rfl) s.table (updIdx s (normalizeNum text))
    split at hok
    · rename_i i hfi
      split at hok
      · rename_i rec1 hlook
        injection hok with hok
        subst hok
        have hnd1 : (s1.data.map Prod.fst).Nodup := by
          rw [hs1]
          show ((flushedData s (normalizeNum text) np nf).map Prod.fst).Nodup
          rw [flushedData_fst]
          exact hnd
        have hnmem : normalizeNum text ∉
            ((removeEntry s1.data (normalizeNum text)).map Prod.fst) :=
          removeEntry_fst_not_mem s1.data (normalizeNum text) hnd1
        refine ⟨?_, ?_, ?_, ?_, ?_, ?_⟩
        · show s1.selected = none
          rw [hs1]
          simp [normalizeNum_ne_empty text]
        · show s1.partsBuf = []
          rw [hs1]
        · show s1.figsBuf = []
          rw [hs1]
        · show s1.notesBuf = ""
          rw [hs1]
        · exact alookup_eq_none_of_not_mem _ _ hnmem
        · intro fuel rows hc r hr
          intro he
          have := complete_mem env fuel _ rows hc r hr
          rw [he] at this
          exact hnmem this
      · exact absurd hok (by simp)
    · rename_i hfi
      rw [htabeq] at hfi
      rw [hfi] at hrow
      simp at hrow

def c3wSt : St where
  selected := some "1-1"
  data := [("1-1", exRec)]
  table := [⟨"1-1", "S", "T", "1", "0", "0", "5", "", 0, 0, 0⟩]
  partsBuf := [("3001", "Black", "1")]
  figsBuf := []
  notesBuf := ""

def c3wSt' : St where
  selected := none
  data := []
  table := []
  partsBuf := []
  figsBuf := []
  notesBuf := ""

/-- C3 (witness): the amended theorem at a concrete state whose buffers
validate. -/
theorem c3_witness :
    removeSet c3exEnv c3wSt "1-1" = .ok c3wSt' ∧
    (c3wSt'.selected = none ∧ c3wSt'.partsBuf = [] ∧ c3wSt'.figsBuf = [] ∧
      c3wSt'.notesBuf = "" ∧ alookup c3wSt'.data (normalizeNum "1-1") = none ∧
      (∀ fuel rows, complete c3exEnv fuel c3wSt'.data = some rows →
        ∀ r ∈ rows, r.num ≠ normalizeNum "1-1")) :=
  ⟨rfl, by
    have h := c3_remove_selected c3exEnv c3wSt c3wSt' "1-1" (by decide) rfl (by decide) rfl
    exact h⟩

def c5wSt1 : St where
  selected := none
  data := [("1-1", ⟨1, 0, 0, none, [("3001", 11, 1)], [], ""⟩)]
  table := [⟨"1-1", "S", "T", "1", "0", "0", "5", "", 1, 0, 0⟩]
  partsBuf := []
  figsBuf := []
  notesBuf := ""

/-- C5 (witness): the row-totals theorem at a concrete one-row flush. -/
theorem c5_witness :
    deselectSet c3exEnv c3wSt = .ok c5wSt1 ∧
    ((∃ (i : Nat) (row : TableRow) (r : Rec),
      c5wSt1.table[i]? = some row ∧ alookup c5wSt1.data "1-1" = some r ∧
      row.mprts = partsTotal r.mprts ∧ row.mfigs = figsTotal r.mfigs ∧
      row.notesLines = lineCount r.notes.data) ∧
     lineCount "".data = 0 ∧ lineCount "a".data = 1 ∧ lineCount "a\nb".data = 2) :=
  ⟨rfl, c5_row_totals_after_flush c3exEnv c3wSt c5wSt1 "1-1" rfl rfl⟩

theorem preSave_ok (env : Env) (s s1 : St) (h : preSave env s = .ok s1) :
    s1.data.map Prod.fst = s.data.map Prod.fst ∧
    s1.table.map TableRow.num = s.table.map TableRow.num := by
  unfold preSave at h
  split at h
  · split at h
    · injection h with h
      subst h
      exact ⟨rfl, rfl⟩
    · obtain ⟨sel, rec0, np, nf, _, _, _, _, _, hs1⟩ := deselectSet_ok env s s1 h
      constructor
      · rw [hs1]
        show (flushedData s sel np nf).map Prod.fst = _
        exact flushedData_fst s sel np nf
      · rw [hs1]
        show (modifyAt s.table (updIdx s sel) (statsUpd np nf s.notesBuf)).map TableRow.num = _
        exact modifyAt_map TableRow.num (statsUpd np nf s.notesBuf) (fun x => rfl) s.table _
  · injection h with h
    subst h
    exact ⟨rfl, rfl⟩

/-- Characterization of the status-bar fold as closed-form sums. -/
theorem statusFold_char (rows : List Row) :
    ∀ acc : Tot, rows.foldl statusStep acc = {
      tbxs := acc.tbxs + (rows.map (fun r => r.boxes)).sum,
      tins := acc.tins + (rows.map (fun r => r.ins)).sum,
      tprts := acc.tprts + (rows.map (fun r => r.parts * r.qty)).sum,
      n := acc.n + (rows.map (fun r => r.qty)).sum,
      twgh := acc.twgh + ((rows.filter (fun r => r.weight.getD 0 != 0)).map
        (fun r => r.weight.getD 0 * r.qty)).sum,
      nwgh := acc.nwgh + ((rows.filter (fun r => r.weight.getD 0 != 0)).map
        (fun r => r.qty)).sum,
      thms := acc.thms ∪ (rows.map (fun r => r.theme.2)).toFinset,
      tmprts := acc.tmprts + (rows.map (fun r => r.mprts)).sum,
      tmfigs := acc.tmfigs + (rows.map (fun r => r.mfigs)).sum } := by
  induction rows with
  | nil =>
    intro acc
    cases acc
    simp
  | cons r rows ih =>
    intro acc
    rw [List.foldl_cons, ih (statusStep acc r)]
    by_cases h : r.weight.getD 0 = 0
    · simp [statusStep, h, List.filter_cons, add_assoc, List.toFinset_cons,
        Finset.insert_union, Finset.union_insert]
    · simp [statusStep, h, List.filter_cons, add_assoc, List.toFinset_cons,
        Finset.insert_union, Finset.union_insert]

/-- C7: the status-bar recompute yields the claimed closed forms — the set
count is the sum of quantities, the net part count is the sum of
`totalParts * quantity` minus the total missing parts, the weight is the
rounded sum of `weight * quantity` over truthy-weight rows divided by 1000,
and the theme count is the number of distinct theme labels; the claim's
scenario (quantity 1, one missing part of quantity 2, 100 total parts)
yields 98 net parts. -/
theorem c7_summary_formulas (rows : List Row) :
    (updateStatusBar rows).setCount = (rows.map (fun r => r.qty)).sum ∧
    (updateStatusBar rows).netParts =
      (rows.map (fun r => r.parts * r.qty)).sum - (rows.map (fun r => r.mprts)).sum ∧
    (updateStatusBar rows).weightKg =
      pyRound (((((rows.filter (fun r => r.weight.getD 0 != 0)).map
        (fun r => r.weight.getD 0 * r.qty)).sum : Int) : ℚ) / 1000) ∧
    (updateStatusBar rows).themeCount = (rows.map (fun r => r.theme.2)).toFinset.card ∧
    (updateStatusBar [mkRow "7140-1" ⟨"X", none, "1", 100⟩
      ⟨1, 0, 0, none, [("3001", 5, 2)], [], ""⟩ (0, "T")]).netParts = 98 := by
  refine ⟨?_, ?_, ?_, ?_, by decide⟩ <;>
  · unfold updateStatusBar
    rw [statusFold_char rows initTot]
    simp [initTot]

/-- C10: `save` maps a displayed weight of `0` or blank to null before
persisting, so no record in the persisted output carries weight 0 (when
every stored key has a display row, as the window maintains); and a null
weight is rendered as the empty string in the composite-row weight cell. -/
theorem c10_save_weight_normalized (env : Env) (s s' : St)
    (out : List (String × Rec))
    (hnd : (s.data.map Prod.fst).Nodup)
    (hcover : ∀ kv ∈ s.data, ∃ row ∈ s.table, row.num = kv.1)
    (hok : save env s = .ok (s', out)) :
    (∀ e ∈ out, e.2.wgh ≠ some 0) ∧
    pyWeightField "0" = some none ∧ pyWeightField "" = some none ∧
    (∀ (num : String) (e : SetEntry) (r : Rec) (th : Int × String),
      r.wgh = none → weightCellText (mkRow num e r th).weight = "") := by
  refine ⟨?_, by decide, by decide, ?_⟩
  · unfold save at hok
    split at hok
    · exact absurd hok (by simp)
    · rename_i s1 hpre
      split at hok
      · exact absurd hok (by simp)
      · rename_i d hsr
        injection hok with hok
        injection hok with h1 h2
        subst h2
        obtain ⟨hfst, hnums⟩ := preSave_ok env s s1 hpre
        intro e he
        obtain ⟨k, r⟩ := e
        have hknd : (d.map Prod.fst).Nodup := by
          rw [saveRows_fst _ _ _ hsr, hfst]
          exact hnd
        have hlook : alookup d k = some r := alookup_of_mem_nodup d k r hknd he
        have hkmem : k ∈ s.data.map Prod.fst := by
          have hk : k ∈ d.map Prod.fst := List.mem_map.2 ⟨(k, r), he, rfl⟩
          rw [saveRows_fst _ _ _ hsr, hfst] at hk
          exact hk
        obtain ⟨kv, hkv, hkveq⟩ := List.mem_map.1 hkmem
        obtain ⟨row, hrowmem, hrownum⟩ := hcover kv hkv
        have hrownum' : row.num = k := by rw [hrownum, hkveq]
        have hmem1 : row.num ∈ s1.table.map TableRow.num := by
          rw [hnums]
          exact List.mem_map.2 ⟨row, hrowmem, rfl⟩
        obtain ⟨row1, hrow1mem, hrow1num⟩ := List.mem_map.1 hmem1
        exact saveRows_weight s1.table s1.data d hsr k
          ⟨row1, hrow1mem, by rw [hrow1num, hrownum']⟩ r hlook
  · intro num e r th hw
    simp [mkRow, weightCellText, hw]

def c10exRec : Rec where
  qty := 2
  boxes := 3
  ins := 4
  wgh := some 250
  mprts := [("p", 11, 1)]
  mfigs := [("f", 1)]
  notes := "n"

def c10exRec' : Rec where
  qty := 1
  boxes := 0
  ins := 0
  wgh := none
  mprts := [("p", 11, 1)]
  mfigs := [("f", 1)]
  notes := "n"

def c10exSt : St where
  selected := none
  data := [("1-1", c10exRec)]
  table := [⟨"1-1", "S", "T", "1", "0", "0", "5", "0", 0, 0, 0⟩]
  partsBuf := []
  figsBuf := []
  notesBuf := ""

def c10exSt' : St := { c10exSt with data := [("1-1", c10exRec')] }

/-- C10 (witness): a displayed weight of `0` is persisted as null. -/
theorem c10_witness :
    save c8exEnv c10exSt = .ok (c10exSt', [("1-1", c10exRec')]) ∧
    ((∀ e ∈ [("1-1", c10exRec')], e.2.wgh ≠ some 0) ∧
     pyWeightField "0" = some none ∧ pyWeightField "" = some none ∧
     (∀ (num : String) (e : SetEntry) (r : Rec) (th : Int × String),
       r.wgh = none → weightCellText (mkRow num e r th).weight = "")) :=
  ⟨rfl, c10_save_weight_normalized c8exEnv c10exSt c10exSt' [("1-1", c10exRec')]
    (by decide) (by decide) rfl⟩

end LegoStats
